import Mathlib

/-!
Verification of the YukiFrame supervisor kernel (C sources) against its
natural-language specification.  The definitions below are a shallow
embedding of the C code in `src/core/event.c`, `src/core/tool_queue.c`
and the authoritative (second) variant of `src/core/tool.c`:

* C strings become `List Char`; `strncpy(dst, src, n)` becomes `take n`
  (the destination structs are `memset` to zero first, so the copy is
  always properly terminated and the remainder reads as empty).
* Fallible C functions returning an `int` error code become functions
  returning an `FwResult` (for callers that inspect the code) or an
  `Option`/pair (for out-parameter style).
* File-scope mutable state (`ToolQueue`, `MessageBus`, the registry)
  becomes explicit state passing.
* Platform calls (`platform_spawn_process`, `platform_is_process_running`)
  become oracle parameters (`SpawnResult`, `alive`).
-/

/-- Error codes from `framework.h` (`FrameworkError`), restricted to the
values the embedded functions actually return. -/
inductive FwResult where
  | ok
  | genericErr
  | invalidArg
  | notFound
  | alreadyExists
  | processFailed
  | pipeFailed
  | parseFailed
  | queueFull
  | memoryErr
deriving DecidableEq, Repr

/-- `QueuePolicy` from `tool_queue.h`. -/
inductive QueuePolicy where
  | dropOldest
  | dropNewest
  | block
deriving DecidableEq, Repr

/-- `ToolQueue` from `tool_queue.h`: a circular buffer of owned message
strings.  `messages` models the `char**` slot array (length = `capacity`,
`none` = NULL slot); the C `int` fields become `Nat` (they are never
negative on the paths the kernel exercises). -/
structure ToolQueue where
  messages : List (Option (List Char))
  capacity : Nat
  head : Nat
  tail : Nat
  count : Nat
  policy : QueuePolicy
  dropped_count : Nat
  delivered_count : Nat
deriving DecidableEq, Repr

/-- `tool_queue_init` (tool_queue.c:6-32): rejects `capacity <= 0`,
otherwise allocates a zeroed slot array. -/
def tool_queue_init (capacity : Nat) (policy : QueuePolicy) : Option ToolQueue :=
  if capacity = 0 then none
  else some
    { messages := List.replicate capacity none
      capacity := capacity
      head := 0
      tail := 0
      count := 0
      policy := policy
      dropped_count := 0
      delivered_count := 0 }

/-- `tool_queue_add` (tool_queue.c:51-95).  When the queue is full the
policy decides: DropOldest frees the head slot, advances `head`,
decrements `count`, bumps `dropped_count` and falls through to the common
append; DropNewest bumps `dropped_count` and returns `QUEUE_FULL`;
Block returns `QUEUE_FULL` untouched.  The common append stores the
message at `tail` and advances it.  (`strdup` failure / OOM is not
modelled.) -/
def tool_queue_add (q : ToolQueue) (event_msg : List Char) : FwResult × ToolQueue :=
  let q1 :=
    if q.capacity ≤ q.count then
      match q.policy with
      | QueuePolicy.dropOldest =>
          some { q with
                  messages := q.messages.set q.head none
                  head := (q.head + 1) % q.capacity
                  count := q.count - 1
                  dropped_count := q.dropped_count + 1 }
      | QueuePolicy.dropNewest => none
      | QueuePolicy.block => none
    else some q
  match q1 with
  | none =>
      match q.policy with
      | QueuePolicy.dropNewest => (FwResult.queueFull, { q with dropped_count := q.dropped_count + 1 })
      | _ => (FwResult.queueFull, q)
  | some q2 =>
      (FwResult.ok,
        { q2 with
            messages := q2.messages.set q2.tail (some event_msg)
            tail := (q2.tail + 1) % q2.capacity
            count := q2.count + 1 })

/-- `tool_queue_peek` (tool_queue.c:97-103): NULL when empty, otherwise
the slot at `head`. -/
def tool_queue_peek (q : ToolQueue) : Option (List Char) :=
  if q.count = 0 then none
  else (q.messages.get? q.head).join

/-- `tool_queue_remove` (tool_queue.c:105-119): no-op when empty;
otherwise frees the head slot, advances `head`, decrements `count` and
bumps `delivered_count`. -/
def tool_queue_remove (q : ToolQueue) : ToolQueue :=
  if q.count = 0 then q
  else
    { q with
        messages := q.messages.set q.head none
        head := (q.head + 1) % q.capacity
        count := q.count - 1
        delivered_count := q.delivered_count + 1 }

/-- Loop body of `tool_queue_clear` (tool_queue.c:145-162), iterated
`count` times (the loop runs while `count > 0` and decrements it each
pass). -/
def tool_queue_clear_loop : ToolQueue → Nat → ToolQueue
  | q, 0 => q
  | q, n + 1 =>
      tool_queue_clear_loop
        { q with
            messages := q.messages.set q.head none
            head := (q.head + 1) % q.capacity
            count := q.count - 1 } n

/-- `tool_queue_clear` (tool_queue.c:145-162): drain every slot, then
reset `head`, `tail` and `count` to zero.  The lifetime counters are
deliberately preserved by the C code. -/
def tool_queue_clear (q : ToolQueue) : ToolQueue :=
  let q' := tool_queue_clear_loop q q.count
  { q' with head := 0, tail := 0, count := 0 }

/-- A push attempt or a pop at one inbox, for reasoning about sequences
of operations (`tool_queue_add` / `tool_queue_remove` calls). -/
inductive QOp where
  | push : List Char → QOp
  | pop : QOp
deriving DecidableEq, Repr

/-- Run a sequence of queue operations against a `ToolQueue`. -/
def runQueueOps (q : ToolQueue) : List QOp → ToolQueue
  | [] => q
  | QOp.push m :: rest => runQueueOps (tool_queue_add q m).2 rest
  | QOp.pop :: rest => runQueueOps (tool_queue_remove q) rest

/-- Number of push attempts in a sequence of queue operations. -/
def countPushes : List QOp → Nat
  | [] => 0
  | QOp.push _ :: rest => countPushes rest + 1
  | QOp.pop :: rest => countPushes rest

/-- `Event` from `event.h`: type, sender and data fields (C arrays of
64, 64 and 4096 bytes).  The capture timestamp is omitted: both
`event_publish` and `event_parse` stamp it with the current wall-clock
time, so it never round-trips and no claim mentions it. -/
structure Event where
  type : List Char
  sender : List Char
  data : List Char
deriving DecidableEq, Repr

/-- One `strtok(s, d)` step for a single-character delimiter set, as the
C library defines it: skip leading delimiters; if nothing remains return
NULL; otherwise the token runs to the next delimiter (or the end), and
the scan position for the following call is just past that delimiter. -/
def strtok1 (d : Char) (s : List Char) : Option (List Char × List Char) :=
  let s2 := s.dropWhile (fun c => c == d)
  match s2 with
  | [] => none
  | _ =>
      some (s2.takeWhile (fun c => c != d),
            (s2.dropWhile (fun c => c != d)).tail)

/-- `event_parse` (event.c:67-94).  The line is copied into a
`char[MAX_EVENT_DATA + 256]` buffer via `strncpy` (hence `take 4351`),
then tokenised with `strtok(buffer, "|")`, `strtok(NULL, "|")` and
`strtok(NULL, "\n")`.  A missing type or sender token yields
`FW_ERROR_PARSE_FAILED` (here `none`); a missing data token leaves the
`memset`-zeroed data field empty.  Each field is stored through
`strncpy(dst, tok, MAX - 1)`. -/
def event_parse (line : List Char) : Option Event :=
  match strtok1 '|' (line.take 4351) with
  | none => none
  | some (ty, r1) =>
    match strtok1 '|' r1 with
    | none => none
    | some (se, r2) =>
      let da := ((strtok1 '\x0a' r2).map Prod.fst).getD []
      some { type := ty.take 63, sender := se.take 63, data := da.take 4095 }

/-- `event_format` (event.c:96-105): `snprintf(buffer, size,
"%s|%s|%s\n", type, sender, data)`; `size == 0` is rejected as an
invalid argument, otherwise the output is truncated to `size - 1`
characters. -/
def event_format (e : Event) (size : Nat) : Option (List Char) :=
  if size = 0 then none
  else some ((e.type ++ '|' :: (e.sender ++ '|' :: (e.data ++ ['\x0a']))).take (size - 1))

/-- `MAX_EVENTS_QUEUE` from `framework.h`. -/
def MAX_EVENTS_QUEUE : Nat := 1000

/-- `MessageBus` from `event.h`: the publish ring of owned events. -/
structure MessageBus where
  queue : List (Option Event)
  head : Nat
  tail : Nat
  count : Nat
deriving DecidableEq, Repr

/-- `event_bus_init` (event.c:13-20): a zeroed bus. -/
def event_bus_init : MessageBus :=
  { queue := List.replicate MAX_EVENTS_QUEUE none, head := 0, tail := 0, count := 0 }

/-- `event_publish` (event.c:35-65).  NULL type or sender is rejected;
a full bus is rejected; otherwise the fields are `strncpy`-copied into a
fresh event (`type`/`sender` keep at most 63 bytes, `data` at most 4095;
NULL `data` leaves the field empty) which is stored at `tail`. -/
def event_publish (bus : MessageBus) (ty se da : Option (List Char)) :
    FwResult × MessageBus :=
  match ty, se with
  | none, _ => (FwResult.invalidArg, bus)
  | some _, none => (FwResult.invalidArg, bus)
  | some ty, some se =>
    if MAX_EVENTS_QUEUE ≤ bus.count then (FwResult.queueFull, bus)
    else
      let e : Event :=
        { type := ty.take 63, sender := se.take 63, data := ((da.getD []).take 4095) }
      (FwResult.ok,
        { bus with
            queue := bus.queue.set bus.tail (some e)
            tail := (bus.tail + 1) % MAX_EVENTS_QUEUE
            count := bus.count + 1 })

/-- Leading characters stripped from a subscription pattern during
fan-out (event.c:131-132): single quote, double quote, space. -/
def isLeadTrim (c : Char) : Bool :=
  c == '\'' || c == '"' || c == ' '

/-- Trailing characters stripped from a subscription pattern during
fan-out (event.c:135-139): quotes, space, newline, carriage return. -/
def isTrailTrim (c : Char) : Bool :=
  c == '\'' || c == '"' || c == ' ' || c == '\x0a' || c == '\x0d'

/-- The per-pattern trimming of `event_process_queue` (event.c:125-139):
the pattern is `strncpy`-copied into a 256-byte buffer (`take 255`),
leading quote/space characters are skipped, then trailing
quote/space/newline characters are zeroed — but the `end > s` guard
means the first remaining character is never stripped from the right. -/
def trim_sub (sub : List Char) : List Char :=
  let s1 := (sub.take 255).dropWhile isLeadTrim
  match s1 with
  | [] => []
  | c :: rest => c :: (rest.reverse.dropWhile isTrailTrim).reverse

/-- The subscription test of `event_process_queue` (event.c:121-149): a
tool is subscribed to an event if some pattern trims to `"*"` or to the
event's type (the loop breaks at the first match, which `List.any`
mirrors). -/
def tool_is_subscribed (subs : List (List Char)) (etype : List Char) : Bool :=
  subs.any (fun sub => trim_sub sub == ['*'] || trim_sub sub == etype)

/-- `ToolStatus` from `tool.h`. -/
inductive ToolStatus where
  | stopped
  | starting
  | running
  | stopping
  | crashed
  | error
deriving DecidableEq, Repr

/-- `RestartPolicy` from `tool.h`. -/
inductive RestartPolicy where
  | never
  | always
  | onDemand
deriving DecidableEq, Repr

/-- `INVALID_HANDLE_VALUE`: process and pipe handles are modelled as
integers, with -1 as the invalid value. -/
def INVALID_HANDLE : Int := -1

/-- `Tool` from `tool.h`.  `char` arrays become `List Char` (bounded by
the `strncpy` calls that fill them), handles and file descriptors become
`Int`, `time_t` timestamps become `Nat`, and the
`subscriptions`/`subscription_count` pair becomes one list. -/
structure Tool where
  name : List Char
  command : List Char
  description : List Char
  process_handle : Int
  pid : Nat
  status : ToolStatus
  stdin_fd : Int
  stdout_fd : Int
  stderr_fd : Int
  stdin_handle : Int
  stdout_handle : Int
  stderr_handle : Int
  autostart : Bool
  restart_on_crash : Bool
  restart_policy : RestartPolicy
  restart_max_delay_sec : Nat
  max_restarts : Nat
  restart_count : Nat
  subscriptions : List (List Char)
  inbox : ToolQueue
  max_queue_size : Nat
  queue_policy : QueuePolicy
  is_on_demand : Bool
  is_starting : Bool
  events_sent : Nat
  events_received : Nat
  start_time : Nat
  started_at : Nat
  last_heartbeat : Nat
  log_lines : Nat
deriving DecidableEq, Repr

/-- The tool record built by `tool_register` (tool.c:278-317): `memset`
to zero, `strncpy` of name (63 bytes kept) and command (511 bytes kept),
then the explicit field initialisations, with the inbox created by
`tool_queue_init(100, DROP_OLDEST)`. -/
def mkNewTool (name command : List Char) (inbox : ToolQueue) : Tool :=
  { name := name.take 63
    command := command.take 511
    description := []
    process_handle := 0
    pid := 0
    status := ToolStatus.stopped
    stdin_fd := 0
    stdout_fd := 0
    stderr_fd := 0
    stdin_handle := 0
    stdout_handle := 0
    stderr_handle := 0
    autostart := false
    restart_on_crash := false
    restart_policy := RestartPolicy.always
    restart_max_delay_sec := 60
    max_restarts := 3
    restart_count := 0
    subscriptions := []
    inbox := inbox
    max_queue_size := 100
    queue_policy := QueuePolicy.dropOldest
    is_on_demand := false
    is_starting := false
    events_sent := 0
    events_received := 0
    start_time := 0
    started_at := 0
    last_heartbeat := 0
    log_lines := 0 }

/-- `MAX_TOOLS` from `framework.h`. -/
def MAX_TOOLS : Nat := 100

/-- `tool_find` (tool.c:366-378): linear scan of the registry comparing
names with `strcmp`; the first match wins. -/
def tool_find : List Tool → List Char → Option Tool
  | [], _ => none
  | t :: ts, name => if t.name = name then some t else tool_find ts name

/-- Index form of the `tool_find` scan: the position of the first tool
whose name matches (the C code works with the pointer, which is
equivalent to this index). -/
def findToolIdx (name : List Char) : List Tool → Option Nat
  | [] => none
  | t :: ts => if t.name = name then some 0 else (findToolIdx name ts).map (· + 1)

/-- `tool_register` (tool.c:264-323): duplicate names are rejected
first, then the `MAX_TOOLS` bound, then the record is allocated and
appended.  `tool_queue_init(100, DROP_OLDEST)` cannot fail in the model
(capacity 100 > 0, no OOM), but the failure path mirrors the C. -/
def tool_register (reg : List Tool) (name command : List Char) : FwResult × List Tool :=
  match tool_find reg name with
  | some _ => (FwResult.alreadyExists, reg)
  | none =>
    if MAX_TOOLS ≤ reg.length then (FwResult.genericErr, reg)
    else
      match tool_queue_init 100 QueuePolicy.dropOldest with
      | none => (FwResult.memoryErr, reg)
      | some inbox => (FwResult.ok, reg ++ [mkNewTool name command inbox])

/-- `tool_stop` (tool.c:431-472): not-found is an error; a tool that is
not `RUNNING` is left untouched with success; otherwise the child is
terminated (platform side effects are outside the state), the inbox is
cleared unless the tool is on-demand with `restart_on_crash` (in which
case it is preserved), and the record ends `STOPPED` with an invalid
process handle. -/
def tool_stop (reg : List Tool) (name : List Char) : FwResult × List Tool :=
  match findToolIdx name reg with
  | none => (FwResult.notFound, reg)
  | some i =>
    match reg.get? i with
    | none => (FwResult.notFound, reg)
    | some t =>
      if t.status ≠ ToolStatus.running then (FwResult.ok, reg)
      else
        let inbox' :=
          if ¬t.is_on_demand ∨ ¬t.restart_on_crash then tool_queue_clear t.inbox
          else t.inbox
        (FwResult.ok,
          reg.set i { t with
                        status := ToolStatus.stopped
                        process_handle := INVALID_HANDLE
                        inbox := inbox' })

/-- Outcome of `platform_spawn_process` for one `tool_start` call:
either `INVALID_HANDLE_VALUE`, or a handle and pid together with the
three pipe descriptors it hands back. -/
inductive SpawnResult where
  | fail
  | ok (handle : Int) (pid : Nat) (sin sout serr : Int)
deriving DecidableEq, Repr

/-- `tool_start` (tool.c:380-429): not-found is an error; a `RUNNING`
tool is returned unchanged with success; otherwise the status passes
through `STARTING`, the process is spawned (`sp` is the platform
outcome), a failed spawn leaves the tool in `ERROR` with
`PROCESS_FAILED`, a negative pipe descriptor leaves `ERROR` with
`PIPE_FAILED`, and on success the record becomes `RUNNING` with the pid
and the timestamps set to the current time `now`
(`_get_osfhandle` is modelled as the identity on descriptors). -/
def tool_start (sp : SpawnResult) (now : Nat) (reg : List Tool) (name : List Char) :
    FwResult × List Tool :=
  match findToolIdx name reg with
  | none => (FwResult.notFound, reg)
  | some i =>
    match reg.get? i with
    | none => (FwResult.notFound, reg)
    | some t =>
      if t.status = ToolStatus.running then (FwResult.ok, reg)
      else
        let t1 := { t with status := ToolStatus.starting }
        match sp with
        | SpawnResult.fail =>
            (FwResult.processFailed,
              reg.set i { t1 with process_handle := INVALID_HANDLE, status := ToolStatus.error })
        | SpawnResult.ok h pid sin sout serr =>
            let t2 := { t1 with
                          process_handle := h
                          stdin_fd := sin, stdout_fd := sout, stderr_fd := serr
                          stdin_handle := sin, stdout_handle := sout, stderr_handle := serr }
            if sin < 0 ∨ sout < 0 ∨ serr < 0 then
              (FwResult.pipeFailed, reg.set i { t2 with status := ToolStatus.error })
            else
              (FwResult.ok,
                reg.set i { t2 with
                              status := ToolStatus.running
                              started_at := now
                              pid := pid
                              last_heartbeat := now
                              start_time := now })

/-- `tool_unregister` (tool.c:325-364): the found tool is stopped if
running, its inbox freed, and its slot removed from the array with the
remaining entries shifted down. -/
def tool_unregister (reg : List Tool) (name : List Char) : FwResult × List Tool :=
  match findToolIdx name reg with
  | none => (FwResult.notFound, reg)
  | some i =>
    match reg.get? i with
    | none => (FwResult.notFound, reg)
    | some t =>
      let reg1 := if t.status = ToolStatus.running then (tool_stop reg name).2 else reg
      (FwResult.ok, reg1.eraseIdx i)

/-- `tool_restart` (tool.c:474-492): stop first when running (an error
aborts), bump `restart_count` on the found record, then start. -/
def tool_restart (sp : SpawnResult) (now : Nat) (reg : List Tool) (name : List Char) :
    FwResult × List Tool :=
  match findToolIdx name reg with
  | none => (FwResult.notFound, reg)
  | some i =>
    match reg.get? i with
    | none => (FwResult.notFound, reg)
    | some t =>
      let stopRes := if t.status = ToolStatus.running then tool_stop reg name
                     else (FwResult.ok, reg)
      if stopRes.1 ≠ FwResult.ok then stopRes
      else
        let reg1 := stopRes.2
        let reg2 :=
          match reg1.get? i with
          | none => reg1
          | some t1 => reg1.set i { t1 with restart_count := t1.restart_count + 1 }
        tool_start sp now reg2 name

/-- One registry slot of the `tool_check_health` sweep (tool.c:605-641):
a `RUNNING` tool whose process is no longer alive is marked `CRASHED`
with its pipe handles closed; then, if `restart_on_crash` is set and
`restart_count < max_restarts`, `tool_restart` is invoked on it.  Any
other tool is left untouched.  `alive` is the
`platform_is_process_running` oracle, applied to the process handle.
`crashTool` is the crash-marking of one record: status `CRASHED`, pipe
handles closed. -/
def crashTool (t : Tool) : Tool :=
  { t with
      status := ToolStatus.crashed
      stdin_handle := INVALID_HANDLE
      stdout_handle := INVALID_HANDLE
      stderr_handle := INVALID_HANDLE }

def health_step (alive : Int → Bool) (sp : SpawnResult) (now : Nat)
    (reg : List Tool) (i : Nat) : List Tool :=
  match reg.get? i with
  | none => reg
  | some t =>
    if t.status = ToolStatus.running then
      if alive t.process_handle then reg
      else
        let reg1 := reg.set i (crashTool t)
        if t.restart_on_crash ∧ t.restart_count < t.max_restarts then
          (tool_restart sp now reg1 t.name).2
        else reg1
    else reg

/-- `tool_check_health` (tool.c:605-641): the sweep over every registry
index in order. -/
def tool_check_health (alive : Int → Bool) (sp : SpawnResult) (now : Nat)
    (reg : List Tool) : List Tool :=
  (List.range reg.length).foldl (health_step alive sp now) reg

/-! ### Helper lemmas about the inbox ring buffer -/

theorem get?_set_self_of_lt {α : Type} (l : List α) (i : Nat) (a : α) (h : i < l.length) :
    (l.set i a).get? i = some a := by
  rw [List.get?_set_eq]
  cases hg : l.get? i with
  | none => exact absurd (List.get?_eq_none.mp hg) (by omega)
  | some x => simp

theorem tool_queue_add_capacity (q : ToolQueue) (m : List Char) :
    (tool_queue_add q m).2.capacity = q.capacity := by
  by_cases h : q.capacity ≤ q.count <;> cases hp : q.policy <;>
    simp [tool_queue_add, h, hp]

theorem tool_queue_add_policy (q : ToolQueue) (m : List Char) :
    (tool_queue_add q m).2.policy = q.policy := by
  by_cases h : q.capacity ≤ q.count <;> cases hp : q.policy <;>
    simp [tool_queue_add, h, hp]

theorem tool_queue_add_count_le (q : ToolQueue) (m : List Char)
    (hcap : 1 ≤ q.capacity) (h : q.count ≤ q.capacity) :
    (tool_queue_add q m).2.count ≤ q.capacity := by
  by_cases hf : q.capacity ≤ q.count <;> cases hp : q.policy <;>
    simp [tool_queue_add, hf, hp] <;> omega

theorem tool_queue_remove_capacity (q : ToolQueue) :
    (tool_queue_remove q).capacity = q.capacity := by
  by_cases h : q.count = 0 <;> simp [tool_queue_remove, h]

theorem tool_queue_remove_policy (q : ToolQueue) :
    (tool_queue_remove q).policy = q.policy := by
  by_cases h : q.count = 0 <;> simp [tool_queue_remove, h]

theorem tool_queue_remove_count_le (q : ToolQueue) (h : q.count ≤ q.capacity) :
    (tool_queue_remove q).count ≤ q.capacity := by
  by_cases h0 : q.count = 0 <;> simp [tool_queue_remove, h0] <;> omega

theorem tool_queue_add_conserves (q : ToolQueue) (m : List Char)
    (hp : q.policy ≠ QueuePolicy.block) (hcap : 1 ≤ q.capacity) :
    (tool_queue_add q m).2.delivered_count + (tool_queue_add q m).2.dropped_count
      + (tool_queue_add q m).2.count
    = q.delivered_count + q.dropped_count + q.count + 1 := by
  by_cases hf : q.capacity ≤ q.count <;> cases hpol : q.policy <;>
    simp [tool_queue_add, hf, hpol] at hp ⊢ <;> omega

theorem tool_queue_remove_conserves (q : ToolQueue) :
    (tool_queue_remove q).delivered_count + (tool_queue_remove q).dropped_count
      + (tool_queue_remove q).count
    = q.delivered_count + q.dropped_count + q.count := by
  by_cases h0 : q.count = 0 <;> simp [tool_queue_remove, h0] <;> omega

theorem runQueueOps_capacity (ops : List QOp) : ∀ q : ToolQueue,
    (runQueueOps q ops).capacity = q.capacity := by
  induction ops with
  | nil => intro q; rfl
  | cons op rest ih =>
      intro q
      cases op with
      | push m => rw [runQueueOps, ih, tool_queue_add_capacity]
      | pop => rw [runQueueOps, ih, tool_queue_remove_capacity]

theorem runQueueOps_policy (ops : List QOp) : ∀ q : ToolQueue,
    (runQueueOps q ops).policy = q.policy := by
  induction ops with
  | nil => intro q; rfl
  | cons op rest ih =>
      intro q
      cases op with
      | push m => rw [runQueueOps, ih, tool_queue_add_policy]
      | pop => rw [runQueueOps, ih, tool_queue_remove_policy]

theorem runQueueOps_count_le (ops : List QOp) : ∀ q : ToolQueue,
    1 ≤ q.capacity → q.count ≤ q.capacity →
    (runQueueOps q ops).count ≤ q.capacity := by
  induction ops with
  | nil => intro q _ h; exact h
  | cons op rest ih =>
      intro q hcap h
      cases op with
      | push m =>
          have h1 := ih (tool_queue_add q m).2
          rw [tool_queue_add_capacity] at h1
          exact h1 hcap (tool_queue_add_count_le q m hcap h)
      | pop =>
          have h1 := ih (tool_queue_remove q)
          rw [tool_queue_remove_capacity] at h1
          exact h1 hcap (tool_queue_remove_count_le q h)

theorem runQueueOps_conserves (ops : List QOp) : ∀ q : ToolQueue,
    q.policy ≠ QueuePolicy.block → 1 ≤ q.capacity →
    (runQueueOps q ops).delivered_count + (runQueueOps q ops).dropped_count
      + (runQueueOps q ops).count
    = q.delivered_count + q.dropped_count + q.count + countPushes ops := by
  induction ops with
  | nil => intro q _ _; rfl
  | cons op rest ih =>
      intro q hp hcap
      cases op with
      | push m =>
          have h1 := ih (tool_queue_add q m).2
          rw [tool_queue_add_policy, tool_queue_add_capacity] at h1
          rw [runQueueOps, h1 hp hcap, tool_queue_add_conserves q m hp hcap,
              countPushes]
          omega
      | pop =>
          have h1 := ih (tool_queue_remove q)
          rw [tool_queue_remove_policy, tool_queue_remove_capacity] at h1
          rw [runQueueOps, h1 hp hcap, tool_queue_remove_conserves q, countPushes]

/-! ### Claims about the inbox ring buffer -/

/-- C4: pushing onto a full `DropOldest` inbox evicts the front line
(the head slot is freed and `head` advances), increments the `dropped`
counter by one, appends the new line at the back (the old `tail` slot
now holds it and `tail` advances), and returns `Ok`; moreover after any
sequence of pushes and pops the count never exceeds the capacity. -/
theorem claim_C4 (q : ToolQueue) (msg : List Char)
    (hpol : q.policy = QueuePolicy.dropOldest)
    (hfull : q.count = q.capacity)
    (hcap : 1 ≤ q.capacity)
    (hlen : q.messages.length = q.capacity)
    (htail : q.tail < q.capacity) :
    (tool_queue_add q msg).1 = FwResult.ok
    ∧ (tool_queue_add q msg).2.dropped_count = q.dropped_count + 1
    ∧ (tool_queue_add q msg).2.head = (q.head + 1) % q.capacity
    ∧ (tool_queue_add q msg).2.count = q.count
    ∧ (tool_queue_add q msg).2.messages.get? q.tail = some (some msg)
    ∧ (tool_queue_add q msg).2.tail = (q.tail + 1) % q.capacity
    ∧ (∀ (q0 : ToolQueue) (ops : List QOp), 1 ≤ q0.capacity → q0.count ≤ q0.capacity →
        (runQueueOps q0 ops).count ≤ q0.capacity) := by
  have hf : q.capacity ≤ q.count := le_of_eq hfull.symm
  refine ⟨?_, ?_, ?_, ?_, ?_, ?_, fun q0 ops h1 h2 => runQueueOps_count_le ops q0 h1 h2⟩
  · simp [tool_queue_add, hf, hpol]
  · simp [tool_queue_add, hf, hpol]
  · simp [tool_queue_add, hf, hpol]
  · simp [tool_queue_add, hf, hpol]; omega
  · simp only [tool_queue_add, hf, if_true, hpol]
    exact get?_set_self_of_lt _ _ _ (by rw [List.length_set, hlen]; exact htail)
  · simp [tool_queue_add, hf, hpol]

/-- Concrete full DropOldest inbox used to witness C4. -/
def qC4w : ToolQueue :=
  { messages := [some ['x'], some ['y']]
    capacity := 2, head := 0, tail := 0, count := 2
    policy := QueuePolicy.dropOldest, dropped_count := 5, delivered_count := 7 }

/-- C4 witness: the hypotheses of `claim_C4` hold at a concrete full
queue, and the theorem yields the `Ok` result there. -/
theorem claim_C4_witness :
    (qC4w.policy = QueuePolicy.dropOldest ∧ qC4w.count = qC4w.capacity
      ∧ 1 ≤ qC4w.capacity ∧ qC4w.messages.length = qC4w.capacity
      ∧ qC4w.tail < qC4w.capacity)
    ∧ (tool_queue_add qC4w ['z']).1 = FwResult.ok :=
  ⟨by decide,
   (claim_C4 qC4w ['z'] (by decide) (by decide) (by decide) (by decide) (by decide)).1⟩

/-- C9 counterexample: under the `Block` policy a push rejected by a
full inbox is neither delivered, nor counted as dropped, nor queued:
after two pushes into a capacity-1 `Block` inbox the accounting sum is
1, not 2, so the conservation claim fails as stated for `Block`. -/
theorem claim_C9_counterexample :
    ((tool_queue_init 1 QueuePolicy.block).map (fun q0 =>
        let q := runQueueOps q0 [QOp.push ['a'], QOp.push ['b']]
        q.delivered_count + q.dropped_count + q.count)
      = some 1)
    ∧ countPushes [QOp.push ['a'], QOp.push ['b']] = 2
    ∧ (1 : Nat) ≠ 2 := by decide

/-- C9 (amended): for an inbox whose policy is `DropOldest` or
`DropNewest` (not `Block`), every sequence of push attempts and pops
satisfies `delivered + dropped + queued = initial accounting + number of
push attempts`: every matched event is accounted as delivered, dropped,
or still queued.  Under `Block`, a push onto a full queue is rejected
without touching any counter, so the equation fails (see the
counterexample). -/
theorem claim_C9_amended (q0 : ToolQueue) (ops : List QOp)
    (hp : q0.policy ≠ QueuePolicy.block) (hcap : 1 ≤ q0.capacity) :
    (runQueueOps q0 ops).delivered_count + (runQueueOps q0 ops).dropped_count
      + (runQueueOps q0 ops).count
    = q0.delivered_count + q0.dropped_count + q0.count + countPushes ops :=
  runQueueOps_conserves ops q0 hp hcap

/-- Concrete DropOldest inbox used to witness C9. -/
def qC9w : ToolQueue :=
  { messages := [none]
    capacity := 1, head := 0, tail := 0, count := 0
    policy := QueuePolicy.dropOldest, dropped_count := 0, delivered_count := 0 }

/-- C9 witness: the amended conservation law instantiated at a concrete
DropOldest inbox and a push/push/pop sequence. -/
theorem claim_C9_witness :
    (qC9w.policy ≠ QueuePolicy.block ∧ 1 ≤ qC9w.capacity)
    ∧ (runQueueOps qC9w [QOp.push ['a'], QOp.push ['b'], QOp.pop]).delivered_count
        + (runQueueOps qC9w [QOp.push ['a'], QOp.push ['b'], QOp.pop]).dropped_count
        + (runQueueOps qC9w [QOp.push ['a'], QOp.push ['b'], QOp.pop]).count
      = qC9w.delivered_count + qC9w.dropped_count + qC9w.count
        + countPushes [QOp.push ['a'], QOp.push ['b'], QOp.pop] :=
  ⟨⟨by decide, by decide⟩,
   claim_C9_amended qC9w [QOp.push ['a'], QOp.push ['b'], QOp.pop] (by decide) (by decide)⟩

/-- C10: peeking an empty inbox returns `None`; removing from an empty
inbox is a total no-op (the whole record, hence count, head and both
counters, is unchanged); and the delivered counter is incremented
exactly when a line is actually removed. -/
theorem claim_C10 (q : ToolQueue) (h : q.count = 0) :
    tool_queue_peek q = none
    ∧ tool_queue_remove q = q
    ∧ (∀ q' : ToolQueue, q'.count ≠ 0 →
        (tool_queue_remove q').delivered_count = q'.delivered_count + 1
        ∧ (tool_queue_remove q').count = q'.count - 1
        ∧ (tool_queue_remove q').dropped_count = q'.dropped_count) := by
  refine ⟨by simp [tool_queue_peek, h], by simp [tool_queue_remove, h], ?_⟩
  intro q' h'
  refine ⟨?_, ?_, ?_⟩ <;> simp [tool_queue_remove, h']

/-- Concrete empty inbox (with nonzero counters) used to witness C10. -/
def qC10w : ToolQueue :=
  { messages := [none, none]
    capacity := 2, head := 1, tail := 1, count := 0
    policy := QueuePolicy.block, dropped_count := 3, delivered_count := 4 }

/-- C10 witness: the hypothesis holds at a concrete empty queue and the
theorem yields both the `None` peek and the no-op removal there. -/
theorem claim_C10_witness :
    qC10w.count = 0 ∧ tool_queue_peek qC10w = none ∧ tool_queue_remove qC10w = qC10w :=
  ⟨by decide, (claim_C10 qC10w (by decide)).1, (claim_C10 qC10w (by decide)).2.1⟩

/-! ### Helper lemmas about `strtok1` -/

theorem takeWhile_ne_append (d : Char) (t rest : List Char) (ht : d ∉ t) :
    (t ++ d :: rest).takeWhile (fun c => c != d) = t := by
  induction t with
  | nil => simp [List.takeWhile_cons]
  | cons a t2 ih =>
      have ha : a ≠ d := by intro hc; exact ht (hc ▸ List.mem_cons_self a t2)
      have ht2 : d ∉ t2 := fun hc => ht (List.mem_cons_of_mem a hc)
      simp [List.takeWhile_cons, ha, ih ht2]

theorem dropWhile_ne_append (d : Char) (t rest : List Char) (ht : d ∉ t) :
    (t ++ d :: rest).dropWhile (fun c => c != d) = d :: rest := by
  induction t with
  | nil => simp [List.dropWhile_cons]
  | cons a t2 ih =>
      have ha : a ≠ d := by intro hc; exact ht (hc ▸ List.mem_cons_self a t2)
      have ht2 : d ∉ t2 := fun hc => ht (List.mem_cons_of_mem a hc)
      simp [List.dropWhile_cons, ha, ih ht2]

/-- A `strtok` step on `token ++ delimiter ++ rest`, when the token is
non-empty and delimiter-free, returns the token and positions the scan
just past the delimiter. -/
theorem strtok1_append (d : Char) (t rest : List Char) (ht : d ∉ t) (hne : t ≠ []) :
    strtok1 d (t ++ d :: rest) = some (t, rest) := by
  cases t with
  | nil => exact absurd rfl hne
  | cons a t2 =>
      have ha : a ≠ d := by intro hc; exact ht (hc ▸ List.mem_cons_self a t2)
      unfold strtok1
      rw [List.cons_append, List.dropWhile_cons]
      simp only [ha, beq_iff_eq, if_false]
      rw [← List.cons_append, takeWhile_ne_append d (a :: t2) rest ht,
          dropWhile_ne_append d (a :: t2) rest ht]
      rfl

/-- A `strtok` step on a non-empty delimiter-free string returns the
whole string and leaves the scan at the end. -/
theorem strtok1_no_delim (d : Char) (t : List Char) (ht : d ∉ t) (hne : t ≠ []) :
    strtok1 d t = some (t, []) := by
  cases t with
  | nil => exact absurd rfl hne
  | cons a t2 =>
      have ha : a ≠ d := by intro hc; exact ht (hc ▸ List.mem_cons_self a t2)
      unfold strtok1
      rw [List.dropWhile_cons]
      simp only [ha, beq_iff_eq, if_false]
      have h1 : (a :: t2).takeWhile (fun c => c != d) = a :: t2 :=
        List.takeWhile_eq_self_iff.mpr (by
          intro x hx
          have : x ≠ d := fun hc => ht (hc ▸ hx)
          simp [this])
      have h2 : (a :: t2).dropWhile (fun c => c != d) = [] :=
        List.dropWhile_eq_nil_iff.mpr (by
          intro x hx
          have : x ≠ d := fun hc => ht (hc ▸ hx)
          simp [this])
      rw [h1, h2]
      rfl

/-- Parsing a line of the exact serialized shape
`TYPE ++ "|" ++ SENDER ++ "|" ++ DATA ++ "\n"` recovers the three
fields, each clipped by its `strncpy` bound, provided the line fits the
parse buffer. -/
theorem event_parse_serialized (ty se d : List Char)
    (hty : ty ≠ []) (hse : se ≠ []) (h1 : '|' ∉ ty) (h2 : '|' ∉ se) (h3 : '\x0a' ∉ d)
    (hlen : ty.length + se.length + d.length + 3 ≤ 4351) :
    event_parse (ty ++ '|' :: (se ++ '|' :: (d ++ ['\x0a'])))
      = some { type := ty.take 63, sender := se.take 63, data := d.take 4095 } := by
  unfold event_parse
  have hbuf : (ty ++ '|' :: (se ++ '|' :: (d ++ ['\x0a']))).take 4351
      = ty ++ '|' :: (se ++ '|' :: (d ++ ['\x0a'])) :=
    List.take_of_length_le (by simp; omega)
  rw [hbuf, strtok1_append '|' ty (se ++ '|' :: (d ++ ['\x0a'])) h1 hty]
  simp only []
  rw [strtok1_append '|' se (d ++ ['\x0a']) h2 hse]
  simp only []
  cases d with
  | nil => rfl
  | cons b d2 =>
      rw [show ((b :: d2) ++ ['\x0a'] : List Char) = (b :: d2) ++ '\x0a' :: [] from rfl,
          strtok1_append '\x0a' (b :: d2) [] h3 (by simp)]
      rfl

/-! ### Claims about event parsing and serialization -/

/-- C1 counterexample: the line `TYPE|SENDER`, which has exactly one
`|` separator, is NOT rejected by `event_parse`: `strtok` finds a type
token and a sender token, the optional data token is simply absent, and
parsing succeeds with an empty data field (the claim says it must fail
with `ParseFailed`). -/
theorem claim_C1_counterexample :
    event_parse ['T', 'Y', 'P', 'E', '|', 'S', 'E', 'N', 'D', 'E', 'R']
      = some { type := ['T', 'Y', 'P', 'E'], sender := ['S', 'E', 'N', 'D', 'E', 'R'],
               data := [] } := by
  decide

/-- C1 (amended): `event_parse` fails with `ParseFailed` only when
`strtok` cannot produce both a type and a sender token — in particular
every line containing no `|` at all is rejected; but a line of the form
`TYPE|SENDER`, with exactly one separator and a non-empty sender, parses
successfully with an empty data field rather than being rejected. -/
theorem claim_C1_amended (line : List Char) :
    ('|' ∉ line → event_parse line = none)
    ∧ event_parse ['T', 'Y', 'P', 'E', '|', 'S', 'E', 'N', 'D', 'E', 'R']
        = some { type := ['T', 'Y', 'P', 'E'], sender := ['S', 'E', 'N', 'D', 'E', 'R'],
                 data := [] } := by
  refine ⟨?_, by decide⟩
  intro h
  have hb : '|' ∉ line.take 4351 := fun hc => h (List.take_subset 4351 line hc)
  by_cases hempty : line.take 4351 = []
  · unfold event_parse
    rw [hempty]
    rfl
  · unfold event_parse
    rw [strtok1_no_delim '|' (line.take 4351) hb hempty]
    rfl

/-- C1 witness: the amended theorem applied to the separator-free line
`TYPE` rejects it. -/
theorem claim_C1_witness :
    ('|' ∉ (['T', 'Y', 'P', 'E'] : List Char))
    ∧ event_parse ['T', 'Y', 'P', 'E'] = none :=
  ⟨by decide, (claim_C1_amended ['T', 'Y', 'P', 'E']).1 (by decide)⟩

/-- C2: serialize-then-parse is the identity on events whose type and
sender are non-empty, `|`-free and within their 63-byte stored bounds,
and whose data is newline-free and within its 4095-byte stored bound
(the bounds are exactly the capacities of the C `Event` struct fields):
`event_parse` applied to the `event_format` output (formatted into the
8192-byte buffer the fan-out code uses) reconstructs the same type,
sender and data. -/
theorem claim_C2 (e : Event)
    (hty : e.type ≠ []) (hse : e.sender ≠ [])
    (h1 : '|' ∉ e.type) (h2 : '|' ∉ e.sender) (h3 : '\x0a' ∉ e.data)
    (hlt : e.type.length ≤ 63) (hls : e.sender.length ≤ 63) (hld : e.data.length ≤ 4095) :
    (event_format e 8192).bind event_parse = some e := by
  unfold event_format
  rw [if_neg (by norm_num)]
  have hfull : (e.type ++ '|' :: (e.sender ++ '|' :: (e.data ++ ['\x0a']))).take (8192 - 1)
      = e.type ++ '|' :: (e.sender ++ '|' :: (e.data ++ ['\x0a'])) :=
    List.take_of_length_le (by simp; omega)
  rw [hfull, Option.some_bind,
      event_parse_serialized e.type e.sender e.data hty hse h1 h2 h3 (by omega),
      List.take_of_length_le hlt, List.take_of_length_le hls, List.take_of_length_le hld]

/-- Concrete event used to witness C2. -/
def eC2w : Event := { type := ['T'], sender := ['S'], data := ['D'] }

/-- C2 witness: the round-trip law applied at a concrete event. -/
theorem claim_C2_witness :
    (eC2w.type ≠ [] ∧ eC2w.sender ≠ [] ∧ '|' ∉ eC2w.type ∧ '|' ∉ eC2w.sender
      ∧ '\x0a' ∉ eC2w.data ∧ eC2w.type.length ≤ 63 ∧ eC2w.sender.length ≤ 63
      ∧ eC2w.data.length ≤ 4095)
    ∧ (event_format eC2w 8192).bind event_parse = some eC2w :=
  ⟨by decide,
   claim_C2 eC2w (by decide) (by decide) (by decide) (by decide) (by decide)
     (by decide) (by decide) (by decide)⟩

/-- The event record stored by `event_publish` on a fresh bus sits in
slot 0 and carries the `strncpy`-clipped fields. -/
theorem event_publish_stores (ty se d : List Char)
    (hlt : ty.length ≤ 63) (hls : se.length ≤ 63) :
    (event_publish event_bus_init (some ty) (some se) (some d)).2.queue.get? 0
      = some (some { type := ty, sender := se, data := d.take 4095 }) := by
  unfold event_publish event_bus_init
  dsimp only
  rw [if_neg (by norm_num [MAX_EVENTS_QUEUE])]
  dsimp only [Option.getD_some]
  rw [List.take_of_length_le hlt, List.take_of_length_le hls]
  exact get?_set_self_of_lt _ _ _
    (by rw [List.length_replicate]; norm_num [MAX_EVENTS_QUEUE])

/-- C3 counterexample: a DATA field of exactly 4096 bytes is NOT stored
intact: `event_publish` copies it with `strncpy(event->data, data,
MAX_EVENT_DATA - 1)`, keeping only 4095 bytes, so the stored event
already lost the last byte (the claim says 4096 bytes survive and only
4097 loses one). -/
theorem claim_C3_counterexample :
    (event_publish event_bus_init (some ['T']) (some ['S'])
        (some (List.replicate 4096 'a'))).2.queue.get? 0
      = some (some { type := ['T'], sender := ['S'], data := List.replicate 4095 'a' })
    ∧ (List.replicate 4095 'a' : List Char) ≠ List.replicate 4096 'a' := by
  constructor
  · rw [event_publish_stores ['T'] ['S'] (List.replicate 4096 'a') (by decide) (by decide),
        List.take_replicate]
    norm_num
  · intro h
    have h2 := congrArg List.length h
    rw [List.length_replicate, List.length_replicate] at h2
    exact absurd h2 (by norm_num)

/-- C3 (amended): the boundary sits one byte lower than claimed.  A DATA
field of at most 4095 bytes is stored by `event_publish` and recovered
by `event_parse` intact; a DATA field of exactly 4096 bytes loses
exactly its last byte both when published and when a serialized line
carrying it is parsed (`strncpy(dst, src, MAX_EVENT_DATA - 1)` keeps
4095 bytes). -/
theorem claim_C3_amended (ty se d : List Char)
    (hty : ty ≠ []) (hse : se ≠ [])
    (h1 : '|' ∉ ty) (h2 : '|' ∉ se) (h3 : '\x0a' ∉ d)
    (hlt : ty.length ≤ 63) (hls : se.length ≤ 63) :
    (d.length ≤ 4095 →
      (event_publish event_bus_init (some ty) (some se) (some d)).2.queue.get? 0
        = some (some { type := ty, sender := se, data := d })
      ∧ event_parse (ty ++ '|' :: (se ++ '|' :: (d ++ ['\x0a'])))
        = some { type := ty, sender := se, data := d })
    ∧ (d.length = 4096 →
      (event_publish event_bus_init (some ty) (some se) (some d)).2.queue.get? 0
        = some (some { type := ty, sender := se, data := d.dropLast })
      ∧ event_parse (ty ++ '|' :: (se ++ '|' :: (d ++ ['\x0a'])))
        = some { type := ty, sender := se, data := d.dropLast }) := by
  constructor
  · intro hd
    constructor
    · rw [event_publish_stores ty se d hlt hls, List.take_of_length_le hd]
    · rw [event_parse_serialized ty se d hty hse h1 h2 h3 (by omega),
          List.take_of_length_le hlt, List.take_of_length_le hls,
          List.take_of_length_le hd]
  · intro hd
    have hdl : d.take 4095 = d.dropLast := by
      rw [List.dropLast_eq_take, hd]
    constructor
    · rw [event_publish_stores ty se d hlt hls, hdl]
    · rw [event_parse_serialized ty se d hty hse h1 h2 h3 (by omega),
          List.take_of_length_le hlt, List.take_of_length_le hls, hdl]

/-- C3 witness: the amended theorem applied at a concrete short DATA
field, which round-trips intact. -/
theorem claim_C3_witness :
    ((['T'] : List Char) ≠ [] ∧ (['S'] : List Char) ≠ []
      ∧ '|' ∉ (['T'] : List Char) ∧ '|' ∉ (['S'] : List Char)
      ∧ '\x0a' ∉ (['D'] : List Char)
      ∧ (['T'] : List Char).length ≤ 63 ∧ (['S'] : List Char).length ≤ 63
      ∧ (['D'] : List Char).length ≤ 4095)
    ∧ (event_publish event_bus_init (some ['T']) (some ['S']) (some ['D'])).2.queue.get? 0
        = some (some { type := ['T'], sender := ['S'], data := ['D'] }) :=
  ⟨by decide,
   ((claim_C3_amended ['T'] ['S'] ['D'] (by decide) (by decide) (by decide) (by decide)
      (by decide) (by decide) (by decide)).1 (by decide)).1⟩

/-! ### Claims about fan-out subscription matching -/

/-- C5: a tool whose subscription set contains a pattern that trims to
`*` (e.g. a quoted or whitespace-wrapped wildcard) is subscribed to
every event type — including the type `*` itself, since the wildcard
test fires before the exact comparison; a tool none of whose patterns
trims to `*` is subscribed to exactly the event types equal to one of
its trimmed patterns. -/
theorem claim_C5 (subs : List (List Char)) (etype : List Char) :
    ((∃ s ∈ subs, trim_sub s = ['*']) → tool_is_subscribed subs etype = true)
    ∧ ((∀ s ∈ subs, trim_sub s ≠ ['*']) →
        (tool_is_subscribed subs etype = true ↔ ∃ s ∈ subs, trim_sub s = etype)) := by
  constructor
  · rintro ⟨s, hs, hstar⟩
    unfold tool_is_subscribed
    rw [List.any_eq_true]
    exact ⟨s, hs, by simp [hstar]⟩
  · intro hall
    unfold tool_is_subscribed
    rw [List.any_eq_true]
    constructor
    · rintro ⟨s, hs, hmatch⟩
      rw [Bool.or_eq_true, beq_iff_eq, beq_iff_eq] at hmatch
      cases hmatch with
      | inl h => exact absurd h (hall s hs)
      | inr h => exact ⟨s, hs, h⟩
    · rintro ⟨s, hs, h⟩
      exact ⟨s, hs, by simp [h]⟩

/-- C5 witness: a quote-wrapped wildcard pattern matches the event type
`*` itself, and a plain exact pattern matches exactly itself. -/
theorem claim_C5_witness :
    (∃ s ∈ ([['"', '*', '"']] : List (List Char)), trim_sub s = ['*'])
    ∧ tool_is_subscribed [['"', '*', '"']] ['*'] = true
    ∧ (tool_is_subscribed [['a']] ['b'] = true
        ↔ ∃ s ∈ ([['a']] : List (List Char)), trim_sub s = ['b']) :=
  ⟨by decide,
   (claim_C5 [['"', '*', '"']] ['*']).1 (by decide),
   (claim_C5 [['a']] ['b']).2 (by decide)⟩

/-! ### Helper lemmas about the registry scan -/

theorem lt_of_get?_eq_some {α : Type} {l : List α} {i : Nat} {a : α}
    (h : l.get? i = some a) : i < l.length := by
  by_contra hc
  rw [List.get?_eq_none.mpr (by omega)] at h
  cases h

theorem tool_find_eq_none_iff (reg : List Tool) (n : List Char) :
    tool_find reg n = none ↔ findToolIdx n reg = none := by
  induction reg with
  | nil => simp [tool_find, findToolIdx]
  | cons a as ih =>
      by_cases h : a.name = n <;> simp [tool_find, findToolIdx, h, ih]

theorem findToolIdx_of_find (reg : List Tool) (n : List Char) (t : Tool)
    (h : tool_find reg n = some t) :
    ∃ i, findToolIdx n reg = some i ∧ reg.get? i = some t := by
  induction reg with
  | nil => cases h
  | cons a as ih =>
      by_cases ha : a.name = n
      · refine ⟨0, by simp [findToolIdx, ha], ?_⟩
        rw [tool_find, if_pos ha] at h
        simpa using h
      · rw [tool_find, if_neg ha] at h
        obtain ⟨i, h1, h2⟩ := ih h
        exact ⟨i + 1, by simp [findToolIdx, ha, h1], by simpa using h2⟩

theorem findToolIdx_append_single (reg : List Tool) (t : Tool) (n : List Char)
    (hn : t.name = n) (hfresh : findToolIdx n reg = none) :
    findToolIdx n (reg ++ [t]) = some reg.length := by
  induction reg with
  | nil => simp [findToolIdx, hn]
  | cons a as ih =>
      rw [findToolIdx] at hfresh
      by_cases ha : a.name = n
      · rw [if_pos ha] at hfresh; cases hfresh
      · rw [if_neg ha] at hfresh
        have has : findToolIdx n as = none := by
          cases hx : findToolIdx n as
          · rfl
          · rw [hx] at hfresh; cases hfresh
        rw [List.cons_append, findToolIdx, if_neg ha, ih has]
        simp

theorem eraseIdx_concat {α : Type} (l : List α) (a : α) :
    (l ++ [a]).eraseIdx l.length = l := by
  induction l with
  | nil => rfl
  | cons x xs ih => simp [List.eraseIdx, ih]

/-! ### Claims about the registry: register/unregister and idempotence -/

/-- C6 counterexample: the claim fails for a fresh name of 64 bytes
(one past the stored capacity).  `tool_register` accepts it but stores
only the first 63 bytes (`strncpy(tool->name, name, MAX_TOOL_NAME -
1)`), so the following `tool_unregister` with the full name finds
nothing, returns `NotFound`, and the registry count stays 1 instead of
returning to 0. -/
theorem claim_C6_counterexample :
    (tool_unregister (tool_register [] (List.replicate 64 'a') ['c']).2
        (List.replicate 64 'a')).1 = FwResult.notFound
    ∧ (tool_unregister (tool_register [] (List.replicate 64 'a') ['c']).2
        (List.replicate 64 'a')).2.length = 1
    ∧ ([] : List Tool).length = 0
    ∧ (1 : Nat) ≠ 0 := by decide

/-- C6 (amended): for every registry state and every fresh name `N` of
at most 63 bytes (the stored capacity of the name field),
`register(N,C)` followed by `unregister(N)` leaves `find(N) = None` and
restores the registry to exactly its previous state (hence its previous
count); and duplicate registration of an already-present name is
rejected with `AlreadyExists` leaving the registry unchanged.  For
longer names the stored name is truncated and the unregister misses
(see the counterexample). -/
theorem claim_C6_amended (reg : List Tool) (N C : List Char)
    (hfresh : tool_find reg N = none) (hlen : N.length ≤ 63) :
    tool_find (tool_unregister (tool_register reg N C).2 N).2 N = none
    ∧ (tool_unregister (tool_register reg N C).2 N).2 = reg
    ∧ (∀ (reg' : List Tool) (n c : List Char), (tool_find reg' n).isSome →
        tool_register reg' n c = (FwResult.alreadyExists, reg')) := by
  have hidx : findToolIdx N reg = none := (tool_find_eq_none_iff reg N).mp hfresh
  have hdup : ∀ (reg' : List Tool) (n c : List Char), (tool_find reg' n).isSome →
      tool_register reg' n c = (FwResult.alreadyExists, reg') := by
    intro reg' n c h
    cases hf : tool_find reg' n with
    | none => rw [hf] at h; cases h
    | some u => simp [tool_register, hf]
  by_cases hfull : MAX_TOOLS ≤ reg.length
  · have hreg : (tool_register reg N C).2 = reg := by
      simp [tool_register, hfresh, hfull]
    have hunreg : tool_unregister reg N = (FwResult.notFound, reg) := by
      simp [tool_unregister, hidx]
    rw [hreg, hunreg]
    exact ⟨hfresh, rfl, hdup⟩
  · have hreg : (tool_register reg N C).2
        = reg ++ [mkNewTool N C ((tool_queue_init 100 QueuePolicy.dropOldest).getD
            { messages := [], capacity := 0, head := 0, tail := 0, count := 0,
              policy := QueuePolicy.dropOldest, dropped_count := 0, delivered_count := 0 })] := by
      simp [tool_register, hfresh, hfull, tool_queue_init]
    set newT : Tool := mkNewTool N C ((tool_queue_init 100 QueuePolicy.dropOldest).getD
        { messages := [], capacity := 0, head := 0, tail := 0, count := 0,
          policy := QueuePolicy.dropOldest, dropped_count := 0, delivered_count := 0 }) with hnewT
    have hname : newT.name = N := by
      rw [hnewT]
      exact List.take_of_length_le hlen
    have hidx2 : findToolIdx N (reg ++ [newT]) = some reg.length :=
      findToolIdx_append_single reg newT N hname hidx
    have hget2 : (reg ++ [newT]).get? reg.length = some newT := by
      rw [List.get?_append_right (le_refl _)]
      simp
    have hstatus : newT.status = ToolStatus.stopped := by rw [hnewT]; rfl
    have hunreg : (tool_unregister (reg ++ [newT]) N).2 = reg := by
      simp only [tool_unregister, hidx2, hget2]
      rw [if_neg (by rw [hstatus]; simp)]
      exact eraseIdx_concat reg newT
    rw [hreg, hunreg]
    exact ⟨hfresh, rfl, hdup⟩

/-- C6 witness: a one-byte fresh name on the empty registry registers
and unregisters back to the empty registry. -/
theorem claim_C6_witness :
    (tool_find ([] : List Tool) ['n'] = none ∧ (['n'] : List Char).length ≤ 63)
    ∧ tool_find (tool_unregister (tool_register [] ['n'] ['c']).2 ['n']).2 ['n'] = none
    ∧ (tool_unregister (tool_register [] ['n'] ['c']).2 ['n']).2 = [] :=
  ⟨⟨by decide, by decide⟩,
   (claim_C6_amended [] ['n'] ['c'] (by decide) (by decide)).1,
   (claim_C6_amended [] ['n'] ['c'] (by decide) (by decide)).2.1⟩

/-- C7: `tool_start` on a tool whose status is already `Running`
returns success and leaves the whole registry — in particular that
tool's record with its pid and process handle — unchanged, without
consulting the spawn oracle; `tool_stop` on a tool not in the `Running`
state returns success and leaves the registry unchanged. -/
theorem claim_C7 (sp : SpawnResult) (now : Nat) (reg : List Tool) (name : List Char)
    (t : Tool) :
    (tool_find reg name = some t → t.status = ToolStatus.running →
      tool_start sp now reg name = (FwResult.ok, reg))
    ∧ (tool_find reg name = some t → t.status ≠ ToolStatus.running →
      tool_stop reg name = (FwResult.ok, reg)) := by
  constructor
  · intro hfind hrun
    obtain ⟨i, h1, h2⟩ := findToolIdx_of_find reg name t hfind
    have h2' : reg[i]? = some t := by rw [← List.get?_eq_getElem?]; exact h2
    simp [tool_start, h1, h2', hrun]
  · intro hfind hrun
    obtain ⟨i, h1, h2⟩ := findToolIdx_of_find reg name t hfind
    have h2' : reg[i]? = some t := by rw [← List.get?_eq_getElem?]; exact h2
    simp [tool_stop, h1, h2', hrun]

/-- Inbox fixture shared by the lifecycle witnesses: the queue
`tool_register` builds (capacity 100, DropOldest). -/
def qReg : ToolQueue :=
  { messages := List.replicate 100 none
    capacity := 100, head := 0, tail := 0, count := 0
    policy := QueuePolicy.dropOldest, dropped_count := 0, delivered_count := 0 }

/-- A concrete running tool. -/
def tRunW : Tool :=
  { mkNewTool ['r'] ['c'] qReg with status := ToolStatus.running, process_handle := 7, pid := 42 }

/-- A concrete stopped tool. -/
def tStopW : Tool := mkNewTool ['s'] ['c'] qReg

/-- C7 witness: on a concrete registry, starting the already-running
tool and stopping the already-stopped tool both succeed and leave the
registry untouched. -/
theorem claim_C7_witness :
    (tool_find [tRunW, tStopW] ['r'] = some tRunW
      ∧ tRunW.status = ToolStatus.running
      ∧ tool_find [tRunW, tStopW] ['s'] = some tStopW
      ∧ tStopW.status ≠ ToolStatus.running)
    ∧ tool_start SpawnResult.fail 0 [tRunW, tStopW] ['r'] = (FwResult.ok, [tRunW, tStopW])
    ∧ tool_stop [tRunW, tStopW] ['s'] = (FwResult.ok, [tRunW, tStopW]) :=
  ⟨⟨by decide, by decide, by decide, by decide⟩,
   (claim_C7 SpawnResult.fail 0 [tRunW, tStopW] ['r'] tRunW).1 (by decide) (by decide),
   (claim_C7 SpawnResult.fail 0 [tRunW, tStopW] ['s'] tStopW).2 (by decide) (by decide)⟩

/-! ### Helper lemmas for the health sweep: the scan index depends only
on the name column, and each lifecycle operation touches exactly the
found index and preserves every tool's name. -/

/-- The `tool_find` scan restricted to the name column. -/
def findNameIdx (n : List Char) : List (List Char) → Option Nat
  | [] => none
  | m :: ms => if m = n then some 0 else (findNameIdx n ms).map (· + 1)

theorem findToolIdx_eq_findNameIdx (n : List Char) (reg : List Tool) :
    findToolIdx n reg = findNameIdx n (reg.map Tool.name) := by
  induction reg with
  | nil => rfl
  | cons a as ih =>
      by_cases h : a.name = n <;> simp [findToolIdx, findNameIdx, h, ih]

theorem findToolIdx_of_nodup (reg : List Tool) (j : Nat) (t : Tool)
    (hnodup : (reg.map Tool.name).Nodup) (hget : reg.get? j = some t) :
    findToolIdx t.name reg = some j := by
  induction reg generalizing j with
  | nil => cases hget
  | cons a as ih =>
      cases j with
      | zero =>
          have ha : a = t := by simpa using hget
          subst ha
          simp [findToolIdx]
      | succ k =>
          have hget2 : as.get? k = some t := by simpa using hget
          have hnd : (as.map Tool.name).Nodup := (List.nodup_cons.mp (by simpa using hnodup)).2
          have hmem : a.name ∉ as.map Tool.name := (List.nodup_cons.mp (by simpa using hnodup)).1
          have hane : ¬ a.name = t.name := by
            intro h
            exact hmem (h ▸ List.mem_map_of_mem Tool.name (List.get?_mem hget2))
          rw [findToolIdx, if_neg hane, ih k hnd hget2]
          rfl

theorem map_name_set (reg : List Tool) (i : Nat) (x t : Tool)
    (hget : reg.get? i = some t) (hname : x.name = t.name) :
    (reg.set i x).map Tool.name = reg.map Tool.name := by
  apply List.ext_get?
  intro k
  rw [List.get?_map, List.get?_map]
  by_cases hk : k = i
  · subst hk
    rw [List.get?_set_eq, hget]
    simp [hname]
  · rw [List.get?_set_ne _ _ (fun h => hk h.symm)]

theorem tool_stop_fst_found (reg : List Tool) (n : List Char) (i : Nat) (t : Tool)
    (h1 : findToolIdx n reg = some i) (h2 : reg.get? i = some t) :
    (tool_stop reg n).1 = FwResult.ok := by
  by_cases h3 : t.status = ToolStatus.running
  · simp only [tool_stop, h1, h2]
    rw [if_neg (by simp [h3])]
  · simp only [tool_stop, h1, h2]
    rw [if_pos h3]

theorem tool_stop_map_name (reg : List Tool) (n : List Char) :
    (tool_stop reg n).2.map Tool.name = reg.map Tool.name := by
  cases h1 : findToolIdx n reg with
  | none => simp only [tool_stop, h1]
  | some i =>
    cases h2 : reg.get? i with
    | none => simp only [tool_stop, h1, h2]
    | some t =>
      by_cases h3 : t.status = ToolStatus.running
      · simp only [tool_stop, h1, h2]
        rw [if_neg (by simp [h3])]
        exact map_name_set reg i _ t h2 rfl
      · simp only [tool_stop, h1, h2]
        rw [if_pos h3]

theorem tool_stop_get?_other (reg : List Tool) (n : List Char) (i k : Nat)
    (h1 : findToolIdx n reg = some i) (hk : k ≠ i) :
    (tool_stop reg n).2.get? k = reg.get? k := by
  cases h2 : reg.get? i with
  | none => simp only [tool_stop, h1, h2]
  | some t =>
    by_cases h3 : t.status = ToolStatus.running
    · simp only [tool_stop, h1, h2]
      rw [if_neg (by simp [h3])]
      exact List.get?_set_ne _ _ (fun h => hk h.symm)
    · simp only [tool_stop, h1, h2]
      rw [if_pos h3]

theorem tool_start_map_name (sp : SpawnResult) (now : Nat) (reg : List Tool) (n : List Char) :
    (tool_start sp now reg n).2.map Tool.name = reg.map Tool.name := by
  cases h1 : findToolIdx n reg with
  | none => simp only [tool_start, h1]
  | some i =>
    cases h2 : reg.get? i with
    | none => simp only [tool_start, h1, h2]
    | some t =>
      by_cases h3 : t.status = ToolStatus.running
      · simp only [tool_start, h1, h2]
        rw [if_pos h3]
      · cases sp with
        | fail =>
            simp only [tool_start, h1, h2]
            rw [if_neg h3]
            exact map_name_set reg i _ t h2 rfl
        | ok h p s1 s2 s3 =>
            simp only [tool_start, h1, h2]
            rw [if_neg h3]
            by_cases h4 : s1 < 0 ∨ s2 < 0 ∨ s3 < 0
            · rw [if_pos h4]
              exact map_name_set reg i _ t h2 rfl
            · rw [if_neg h4]
              exact map_name_set reg i _ t h2 rfl

theorem tool_start_get?_other (sp : SpawnResult) (now : Nat) (reg : List Tool) (n : List Char)
    (i k : Nat) (h1 : findToolIdx n reg = some i) (hk : k ≠ i) :
    (tool_start sp now reg n).2.get? k = reg.get? k := by
  have hne : i ≠ k := fun h => hk h.symm
  cases h2 : reg.get? i with
  | none => simp only [tool_start, h1, h2]
  | some t =>
    by_cases h3 : t.status = ToolStatus.running
    · simp only [tool_start, h1, h2]
      rw [if_pos h3]
    · cases sp with
      | fail =>
          simp only [tool_start, h1, h2]
          rw [if_neg h3]
          exact List.get?_set_ne _ _ hne
      | ok h p s1 s2 s3 =>
          simp only [tool_start, h1, h2]
          rw [if_neg h3]
          by_cases h4 : s1 < 0 ∨ s2 < 0 ∨ s3 < 0
          · rw [if_pos h4]
            exact List.get?_set_ne _ _ hne
          · rw [if_neg h4]
            exact List.get?_set_ne _ _ hne

theorem tool_restart_map_name (sp : SpawnResult) (now : Nat) (reg : List Tool) (n : List Char) :
    (tool_restart sp now reg n).2.map Tool.name = reg.map Tool.name := by
  cases h1 : findToolIdx n reg with
  | none => simp only [tool_restart, h1]
  | some i =>
    cases h2 : reg.get? i with
    | none => simp only [tool_restart, h1, h2]
    | some t =>
      have hok := tool_stop_fst_found reg n i t h1 h2
      by_cases h3 : t.status = ToolStatus.running
      · simp only [tool_restart, h1, h2]
        rw [if_pos h3, if_neg (by simp [hok])]
        cases h4 : (tool_stop reg n).2.get? i with
        | none =>
            exact (tool_start_map_name sp now _ n).trans (tool_stop_map_name reg n)
        | some t1 =>
            refine (tool_start_map_name sp now _ n).trans ?_
            refine (map_name_set _ i { t1 with restart_count := t1.restart_count + 1 }
              t1 h4 rfl).trans ?_
            exact tool_stop_map_name reg n
      · simp only [tool_restart, h1, h2]
        rw [if_neg h3, if_neg (by simp), h2]
        refine (tool_start_map_name sp now _ n).trans ?_
        exact map_name_set reg i _ t h2 rfl

theorem tool_restart_get?_other (sp : SpawnResult) (now : Nat) (reg : List Tool) (n : List Char)
    (i k : Nat) (h1 : findToolIdx n reg = some i) (hk : k ≠ i) :
    (tool_restart sp now reg n).2.get? k = reg.get? k := by
  cases h2 : reg.get? i with
  | none => simp only [tool_restart, h1, h2]
  | some t =>
    have hok := tool_stop_fst_found reg n i t h1 h2
    by_cases h3 : t.status = ToolStatus.running
    · simp only [tool_restart, h1, h2]
      rw [if_pos h3, if_neg (by simp [hok])]
      have hfi1 : findToolIdx n (tool_stop reg n).2 = some i := by
        rw [findToolIdx_eq_findNameIdx, tool_stop_map_name, ← findToolIdx_eq_findNameIdx]
        exact h1
      cases h4 : (tool_stop reg n).2.get? i with
      | none =>
          exact (tool_start_get?_other sp now _ n i k hfi1 hk).trans
            (tool_stop_get?_other reg n i k h1 hk)
      | some t1 =>
          have hfi2 : findToolIdx n
              ((tool_stop reg n).2.set i { t1 with restart_count := t1.restart_count + 1 })
              = some i := by
            rw [findToolIdx_eq_findNameIdx,
                map_name_set _ i { t1 with restart_count := t1.restart_count + 1 } t1 h4 rfl,
                ← findToolIdx_eq_findNameIdx]
            exact hfi1
          refine (tool_start_get?_other sp now _ n i k hfi2 hk).trans ?_
          refine (List.get?_set_ne _ _ (fun h => hk h.symm)).trans ?_
          exact tool_stop_get?_other reg n i k h1 hk
    · simp only [tool_restart, h1, h2]
      rw [if_neg h3, if_neg (by simp), h2]
      have hfi2 : findToolIdx n
          (reg.set i { t with restart_count := t.restart_count + 1 }) = some i := by
        rw [findToolIdx_eq_findNameIdx,
            map_name_set reg i { t with restart_count := t.restart_count + 1 } t h2 rfl,
            ← findToolIdx_eq_findNameIdx]
        exact h1
      refine (tool_start_get?_other sp now _ n i k hfi2 hk).trans ?_
      exact List.get?_set_ne _ _ (fun h => hk h.symm)

theorem health_step_map_name (a : Int → Bool) (sp : SpawnResult) (now : Nat)
    (reg : List Tool) (j : Nat) :
    (health_step a sp now reg j).map Tool.name = reg.map Tool.name := by
  cases hj : reg.get? j with
  | none => simp only [health_step, hj]
  | some t =>
    by_cases h3 : t.status = ToolStatus.running
    · by_cases h4 : a t.process_handle = true
      · simp only [health_step, hj]
        rw [if_pos h3, if_pos h4]
      · simp only [health_step, hj]
        rw [if_pos h3, if_neg h4]
        by_cases h5 : t.restart_on_crash = true ∧ t.restart_count < t.max_restarts
        · rw [if_pos h5]
          refine (tool_restart_map_name sp now _ t.name).trans ?_
          exact map_name_set reg j _ t hj rfl
        · rw [if_neg h5]
          exact map_name_set reg j _ t hj rfl
    · simp only [health_step, hj]
      rw [if_neg h3]

theorem health_step_get?_other (a : Int → Bool) (sp : SpawnResult) (now : Nat)
    (reg : List Tool) (j k : Nat)
    (hnodup : (reg.map Tool.name).Nodup) (hk : k ≠ j) :
    (health_step a sp now reg j).get? k = reg.get? k := by
  cases hj : reg.get? j with
  | none => simp only [health_step, hj]
  | some t =>
    have hlt := lt_of_get?_eq_some hj
    by_cases h3 : t.status = ToolStatus.running
    · by_cases h4 : a t.process_handle = true
      · simp only [health_step, hj]
        rw [if_pos h3, if_pos h4]
      · simp only [health_step, hj]
        rw [if_pos h3, if_neg h4]
        by_cases h5 : t.restart_on_crash = true ∧ t.restart_count < t.max_restarts
        · rw [if_pos h5]
          have hget1 : (reg.set j (crashTool t)).get? j = some (crashTool t) :=
            get?_set_self_of_lt _ _ _ hlt
          have hnd1 : ((reg.set j (crashTool t)).map Tool.name).Nodup := by
            rw [map_name_set reg j (crashTool t) t hj rfl]
            exact hnodup
          have hfi0 := findToolIdx_of_nodup (reg.set j (crashTool t)) j (crashTool t)
            hnd1 hget1
          have hfi : findToolIdx t.name (reg.set j (crashTool t)) = some j := hfi0
          refine (tool_restart_get?_other sp now _ t.name j k hfi hk).trans ?_
          exact List.get?_set_ne _ _ (fun h => hk h.symm)
        · rw [if_neg h5]
          exact List.get?_set_ne _ _ (fun h => hk h.symm)
    · simp only [health_step, hj]
      rw [if_neg h3]

theorem foldl_health_preserve (a : Int → Bool) (sp : SpawnResult) (now : Nat)
    (idxs : List Nat) (i : Nat) :
    ∀ reg : List Tool, (reg.map Tool.name).Nodup → i ∉ idxs →
      (idxs.foldl (health_step a sp now) reg).get? i = reg.get? i
      ∧ (idxs.foldl (health_step a sp now) reg).map Tool.name = reg.map Tool.name := by
  induction idxs with
  | nil => intro reg _ _; exact ⟨rfl, rfl⟩
  | cons j rest ih =>
      intro reg hnodup hmem
      have hij : i ≠ j := fun h => hmem (by rw [h]; exact List.mem_cons_self j rest)
      have hstep1 := health_step_get?_other a sp now reg j i hnodup hij
      have hstep2 := health_step_map_name a sp now reg j
      have hnd2 : ((health_step a sp now reg j).map Tool.name).Nodup := by
        rw [hstep2]; exact hnodup
      have hmem2 : i ∉ rest := fun h => hmem (List.mem_cons_of_mem j h)
      obtain ⟨ha, hb⟩ := ih (health_step a sp now reg j) hnd2 hmem2
      exact ⟨by rw [List.foldl_cons, ha, hstep1], by rw [List.foldl_cons, hb, hstep2]⟩

/-- The outcome of one `tool_start` spawn attempt, as a status. -/
def spawnStatus : SpawnResult → ToolStatus
  | SpawnResult.fail => ToolStatus.error
  | SpawnResult.ok _ _ s1 s2 s3 =>
      if s1 < 0 ∨ s2 < 0 ∨ s3 < 0 then ToolStatus.error else ToolStatus.running

theorem tool_start_at (sp : SpawnResult) (now : Nat) (reg : List Tool) (n : List Char)
    (i : Nat) (t : Tool)
    (h1 : findToolIdx n reg = some i) (h2 : reg.get? i = some t)
    (hnr : ¬ t.status = ToolStatus.running) :
    ((tool_start sp now reg n).2.get? i).map Tool.restart_count = some t.restart_count
    ∧ ((tool_start sp now reg n).2.get? i).map Tool.status = some (spawnStatus sp) := by
  have hlt := lt_of_get?_eq_some h2
  simp only [tool_start, h1, h2]
  rw [if_neg hnr]
  cases sp with
  | fail =>
      dsimp only
      rw [get?_set_self_of_lt _ _ _ hlt]
      exact ⟨rfl, rfl⟩
  | ok h p s1 s2 s3 =>
      dsimp only
      by_cases h4 : s1 < 0 ∨ s2 < 0 ∨ s3 < 0
      · rw [if_pos h4, get?_set_self_of_lt _ _ _ hlt]
        exact ⟨rfl, by simp [spawnStatus, h4]⟩
      · rw [if_neg h4, get?_set_self_of_lt _ _ _ hlt]
        exact ⟨rfl, by simp [spawnStatus, h4]⟩

theorem tool_restart_at (sp : SpawnResult) (now : Nat) (reg : List Tool) (n : List Char)
    (i : Nat) (t : Tool)
    (h1 : findToolIdx n reg = some i) (h2 : reg.get? i = some t)
    (hnr : ¬ t.status = ToolStatus.running) :
    ((tool_restart sp now reg n).2.get? i).map Tool.restart_count
      = some (t.restart_count + 1)
    ∧ ((tool_restart sp now reg n).2.get? i).map Tool.status = some (spawnStatus sp) := by
  have hlt : i < reg.length := lt_of_get?_eq_some h2
  simp only [tool_restart, h1, h2]
  rw [if_neg hnr, if_neg (by simp)]
  simp only [h2]
  have hfi2 : findToolIdx n
      (reg.set i { t with restart_count := t.restart_count + 1 }) = some i := by
    rw [findToolIdx_eq_findNameIdx,
        map_name_set reg i { t with restart_count := t.restart_count + 1 } t h2 rfl,
        ← findToolIdx_eq_findNameIdx]
    exact h1
  have hget2 : (reg.set i { t with restart_count := t.restart_count + 1 }).get? i
      = some { t with restart_count := t.restart_count + 1 } :=
    get?_set_self_of_lt _ _ _ hlt
  have hst := tool_start_at sp now
    (reg.set i { t with restart_count := t.restart_count + 1 }) n i
    { t with restart_count := t.restart_count + 1 } hfi2 hget2 hnr
  exact ⟨hst.1, hst.2⟩

theorem health_step_at_crashed (a : Int → Bool) (sp : SpawnResult) (now : Nat)
    (reg : List Tool) (i : Nat) (t : Tool)
    (hnodup : (reg.map Tool.name).Nodup)
    (hget : reg.get? i = some t)
    (hrun : t.status = ToolStatus.running)
    (hdead : a t.process_handle = false) :
    (¬(t.restart_on_crash = true ∧ t.restart_count < t.max_restarts) →
      (health_step a sp now reg i).get? i = some (crashTool t))
    ∧ ((t.restart_on_crash = true ∧ t.restart_count < t.max_restarts) →
      ((health_step a sp now reg i).get? i).map Tool.restart_count
          = some (t.restart_count + 1)
      ∧ ((health_step a sp now reg i).get? i).map Tool.status = some (spawnStatus sp)) := by
  have hlt := lt_of_get?_eq_some hget
  constructor
  · intro h5
    simp only [health_step, hget]
    rw [if_pos hrun, if_neg (by simp [hdead]), if_neg h5]
    exact get?_set_self_of_lt _ _ _ hlt
  · intro h5
    simp only [health_step, hget]
    rw [if_pos hrun, if_neg (by simp [hdead]), if_pos h5]
    have hget1 : (reg.set i (crashTool t)).get? i = some (crashTool t) :=
      get?_set_self_of_lt _ _ _ hlt
    have hnd1 : ((reg.set i (crashTool t)).map Tool.name).Nodup := by
      rw [map_name_set reg i (crashTool t) t hget rfl]
      exact hnodup
    have hfi0 := findToolIdx_of_nodup (reg.set i (crashTool t)) i (crashTool t) hnd1 hget1
    have hfi : findToolIdx t.name (reg.set i (crashTool t)) = some i := hfi0
    have hres := tool_restart_at sp now (reg.set i (crashTool t)) t.name i (crashTool t)
      hfi hget1 (by rw [show (crashTool t).status = ToolStatus.crashed from rfl]; simp)
    exact hres

/-! ### Claims about the health sweep -/

/-- Concrete crashed-at-max tool for the C8 counterexample and witness:
running status, dead process, `restart_on_crash` set, and
`restart_count` already equal to `max_restarts`. -/
def tC8c : Tool :=
  { mkNewTool ['h'] ['c'] qReg with
      status := ToolStatus.running
      restart_on_crash := true
      restart_count := 3
      max_restarts := 3
      process_handle := 9 }

/-- C8 counterexample: a running tool whose process has died, with
`restart_on_crash` true and `restart_count` at `max_restarts`, is left
in the `Crashed` state by the health sweep — it is NOT transitioned to
`Error` as the claim requires (the code simply skips the restart; no
Error transition or WARN exists on that path). -/
theorem claim_C8_counterexample :
    ((tool_check_health (fun _ => false) SpawnResult.fail 0 [tC8c]).get? 0).map Tool.status
      = some ToolStatus.crashed
    ∧ ToolStatus.crashed ≠ ToolStatus.error := by decide

/-- C8 (amended): during the health sweep, a `Running` tool (at a
registry position with pairwise-distinct names) whose process is no
longer alive is marked `Crashed` with its pipe handles closed; if
`restart_on_crash` is true and `restart_count` has reached
`max_restarts` the record is left exactly in that crashed state (no
`Error` transition, counter unchanged); if `restart_count` is below
`max_restarts` the counter is incremented and a start is requested
(yielding `Running` on a successful spawn, `Error` on a failed one,
per `spawnStatus`). -/
theorem claim_C8_amended (alive : Int → Bool) (sp : SpawnResult) (now : Nat)
    (reg : List Tool) (i : Nat) (t : Tool)
    (hnodup : (reg.map Tool.name).Nodup)
    (hget : reg.get? i = some t)
    (hrun : t.status = ToolStatus.running)
    (hdead : alive t.process_handle = false)
    (hrc : t.restart_on_crash = true) :
    (t.max_restarts ≤ t.restart_count →
      (tool_check_health alive sp now reg).get? i = some (crashTool t))
    ∧ (t.restart_count < t.max_restarts →
      ((tool_check_health alive sp now reg).get? i).map Tool.restart_count
          = some (t.restart_count + 1)
      ∧ ((tool_check_health alive sp now reg).get? i).map Tool.status
          = some (spawnStatus sp)) := by
  have hlt := lt_of_get?_eq_some hget
  have hsplit : List.range reg.length
      = (List.range i ++ [i])
        ++ (List.range (reg.length - (i + 1))).map (fun x => (i + 1) + x) := by
    have hn : reg.length = (i + 1) + (reg.length - (i + 1)) := by omega
    rw [← List.range_succ, ← List.range_add, ← hn]
  have hchk : tool_check_health alive sp now reg
      = ((List.range (reg.length - (i + 1))).map (fun x => (i + 1) + x)).foldl
          (health_step alive sp now)
          (health_step alive sp now
            ((List.range i).foldl (health_step alive sp now) reg) i) := by
    rw [tool_check_health, hsplit, List.foldl_append, List.foldl_append]
    rfl
  obtain ⟨hg0, hm0⟩ := foldl_health_preserve alive sp now (List.range i) i reg hnodup
    (by intro hmem; exact absurd (List.mem_range.mp hmem) (lt_irrefl i))
  have hnd0 : (((List.range i).foldl (health_step alive sp now) reg).map Tool.name).Nodup := by
    rw [hm0]; exact hnodup
  have hget0 : ((List.range i).foldl (health_step alive sp now) reg).get? i = some t := by
    rw [hg0]; exact hget
  have hstep := health_step_at_crashed alive sp now
    ((List.range i).foldl (health_step alive sp now) reg) i t hnd0 hget0 hrun hdead
  have hm1 : ((health_step alive sp now
      ((List.range i).foldl (health_step alive sp now) reg) i).map Tool.name).Nodup := by
    rw [health_step_map_name, hm0]; exact hnodup
  obtain ⟨hg2, _⟩ := foldl_health_preserve alive sp now
    ((List.range (reg.length - (i + 1))).map (fun x => (i + 1) + x)) i
    (health_step alive sp now ((List.range i).foldl (health_step alive sp now) reg) i) hm1
    (by
      intro hmem
      obtain ⟨x, _, hxx⟩ := List.mem_map.mp hmem
      omega)
  constructor
  · intro h5
    rw [hchk, hg2]
    exact hstep.1 (by rintro ⟨-, hlt2⟩; omega)
  · intro h5
    rw [hchk, hg2]
    exact hstep.2 ⟨hrc, h5⟩

/-- C8 witness: the amended theorem applied at a concrete single-tool
registry whose tool has exhausted its restart budget: the sweep leaves
it crashed with the counter untouched. -/
theorem claim_C8_witness :
    (([tC8c].map Tool.name).Nodup ∧ [tC8c].get? 0 = some tC8c
      ∧ tC8c.status = ToolStatus.running
      ∧ (fun _ : Int => false) tC8c.process_handle = false
      ∧ tC8c.restart_on_crash = true ∧ tC8c.max_restarts ≤ tC8c.restart_count)
    ∧ (tool_check_health (fun _ => false) SpawnResult.fail 0 [tC8c]).get? 0
        = some (crashTool tC8c) :=
  ⟨⟨by decide, by decide, by decide, by decide, by decide, by decide⟩,
   (claim_C8_amended (fun _ => false) SpawnResult.fail 0 [tC8c] 0 tC8c (by decide)
      (by decide) (by decide) (by decide) (by decide)).1 (by decide)⟩
